import Mathlib

/-!
Verification development for the torchmetrics classification metrics
(negative predictive value, sensitivity-at-specificity).

The numeric core is embedded over exact rationals (`ℚ`) standing for the
tensor framework's floating point values, lists standing for 1-d tensors,
and natural numbers standing for integer count tensors.

Embedding sources:
- `sensAtSpecScan`, `argmaxTpr`: the qualifying-point scan of
  `_sensitivity_at_specificity_x_multilabel`
  (src/tests/unittests/classification/test_sensitivity_specificity.py,
  lines 59-74), which is the repository's reference implementation of the
  search performed by `_binary_sensitivity_at_specificity_compute`.
- Definitions whose doc comment starts with `Modelled from the spec:`
  embed repository functions that are declared/called under src/ but whose
  bodies live in modules not included under src/ (the
  torchmetrics.functional.classification and stat_scores modules); they
  follow the spec text and the class docstrings, and are checked below
  against the concrete docstring examples of the files under src/.
-/

/-- A point of a ROC curve: false positive rate, true positive rate
(sensitivity) and the threshold producing them (spec section 3). -/
structure RocPoint where
  fpr : ℚ
  tpr : ℚ
  thr : ℚ
deriving DecidableEq, Repr

/-- Modelled from the spec: `_convert_fpr_to_specificity` (module
torchmetrics.functional.classification.sensitivity_specificity, absent from
src/, called by the test reference implementation). Spec glossary:
"Specificity: true-negative rate, 1 − false-positive-rate." -/
def specificityOf (p : RocPoint) : ℚ := 1 - p.fpr

/-- First-occurrence argmax over true positive rate, as computed by
`np.argmax(sensitivity)` in `_sensitivity_at_specificity_x_multilabel`
(test file line 70): a later point replaces the current best only when its
tpr is strictly larger, so the first maximum wins. -/
def argmaxTpr : RocPoint → List RocPoint → RocPoint
  | best, [] => best
  | best, p :: ps => if best.tpr < p.tpr then argmaxTpr p ps else argmaxTpr best ps

/-- The sensitivity-at-specificity search over a ROC curve, embedded from
`_sensitivity_at_specificity_x_multilabel` (test file lines 59-74): keep
the points whose specificity reaches `m`; if none remain return the
defined degenerate result `(0, 1e6)`; otherwise return the tpr and
threshold of the first point of maximum tpr. -/
def sensAtSpecScan (curve : List RocPoint) (m : ℚ) : ℚ × ℚ :=
  match curve.filter (fun p => decide (m ≤ specificityOf p)) with
  | [] => (0, 1000000)
  | q :: qs => ((argmaxTpr q qs).tpr, (argmaxTpr q qs).thr)

/-- `argmaxTpr b l` splits `b :: l` into a strict prefix, the returned
point, and a suffix: everything before it has strictly smaller tpr and
everything after it has tpr at most that of the returned point. -/
theorem argmaxTpr_decomp (b : RocPoint) (l : List RocPoint) :
    ∃ l₁ l₂, b :: l = l₁ ++ argmaxTpr b l :: l₂ ∧
      (∀ q ∈ l₁, q.tpr < (argmaxTpr b l).tpr) ∧
      (∀ q ∈ l₂, q.tpr ≤ (argmaxTpr b l).tpr) := by
  induction l generalizing b with
  | nil => exact ⟨[], [], rfl, by simp, by simp⟩
  | cons p ps ih =>
    rcases lt_or_le b.tpr p.tpr with h | h
    · have harg : argmaxTpr b (p :: ps) = argmaxTpr p ps := by
        simp [argmaxTpr, h]
      obtain ⟨l₁, l₂, heq, hlt, hle⟩ := ih p
      have hple : p.tpr ≤ (argmaxTpr p ps).tpr := by
        cases l₁ with
        | nil =>
          rw [List.nil_append] at heq
          injection heq with h1 _
          exact le_of_eq (congrArg RocPoint.tpr h1)
        | cons a t =>
          rw [List.cons_append] at heq
          injection heq with h1 _
          rw [congrArg RocPoint.tpr h1]
          exact le_of_lt (hlt a (List.mem_cons_self a t))
      refine ⟨b :: l₁, l₂, ?_, ?_, ?_⟩
      · rw [harg, List.cons_append]
        exact congrArg (b :: ·) heq
      · intro q hq
        rcases List.mem_cons.1 hq with hqb | hql
        · rw [harg, hqb]; exact lt_of_lt_of_le h hple
        · rw [harg]; exact hlt q hql
      · rw [harg]; exact hle
    · have harg : argmaxTpr b (p :: ps) = argmaxTpr b ps := by
        simp [argmaxTpr, not_lt.2 h]
      obtain ⟨l₁, l₂, heq, hlt, hle⟩ := ih b
      cases l₁ with
      | nil =>
        rw [List.nil_append] at heq
        injection heq with hb hps
        refine ⟨[], p :: ps, ?_, by simp, ?_⟩
        · rw [harg, List.nil_append, ← hb]
        · intro q hq
          rcases List.mem_cons.1 hq with hqp | hql
          · rw [harg, hqp, ← hb]; exact h
          · rw [harg]; exact hle q (hps ▸ hql)
      | cons a t =>
        rw [List.cons_append] at heq
        injection heq with hba hps
        have hblt : b.tpr < (argmaxTpr b ps).tpr := by
          rw [congrArg RocPoint.tpr hba]
          exact hlt a (List.mem_cons_self a t)
        refine ⟨b :: p :: t, l₂, ?_, ?_, ?_⟩
        · rw [harg, List.cons_append, List.cons_append]
          exact congrArg (b :: p :: ·) hps
        · intro q hq
          rcases List.mem_cons.1 hq with hqb | hq
          · rw [harg, hqb]; exact hblt
          rcases List.mem_cons.1 hq with hqp | hq
          · rw [harg, hqp]; exact lt_of_le_of_lt h hblt
          · rw [harg]; exact hlt q (hba ▸ List.mem_cons_of_mem a hq)
        · rw [harg]; exact hle

/-- Claim C1: for every ROC curve and minimum specificity bound, when some
point has specificity at least the bound, the scan returns the
(sensitivity, threshold) of a qualifying point of maximum sensitivity, and
among qualifying points of equal maximum sensitivity the first one in
curve order: the qualifying sublist splits around the returned point with
all earlier qualifying points of strictly smaller sensitivity and all
later ones no larger. -/
theorem sensitivity_at_specificity_max_first (curve : List RocPoint) (m : ℚ)
    (h : ∃ p ∈ curve, m ≤ specificityOf p) :
    ∃ p l₁ l₂,
      p ∈ curve ∧ m ≤ specificityOf p ∧
      sensAtSpecScan curve m = (p.tpr, p.thr) ∧
      curve.filter (fun q => decide (m ≤ specificityOf q)) = l₁ ++ p :: l₂ ∧
      (∀ q ∈ l₁, q.tpr < p.tpr) ∧
      (∀ q ∈ l₂, q.tpr ≤ p.tpr) := by
  obtain ⟨p₀, hp₀, hq₀⟩ := h
  have hmem : p₀ ∈ curve.filter (fun q => decide (m ≤ specificityOf q)) :=
    List.mem_filter.2 ⟨hp₀, by simpa using hq₀⟩
  cases hfq : curve.filter (fun q => decide (m ≤ specificityOf q)) with
  | nil => rw [hfq] at hmem; cases hmem
  | cons q qs =>
    obtain ⟨l₁, l₂, heq, hlt, hle⟩ := argmaxTpr_decomp q qs
    have hscan : sensAtSpecScan curve m = ((argmaxTpr q qs).tpr, (argmaxTpr q qs).thr) := by
      unfold sensAtSpecScan
      rw [hfq]
    have hmem2 : argmaxTpr q qs ∈ curve.filter (fun q => decide (m ≤ specificityOf q)) := by
      rw [hfq, heq]
      exact List.mem_append.2 (Or.inr (List.mem_cons_self _ _))
    have hprop := List.mem_filter.1 hmem2
    exact ⟨argmaxTpr q qs, l₁, l₂, hprop.1, by simpa using hprop.2, hscan,
      heq, hlt, hle⟩

/-- Concrete instance of claim C1, on the ROC curve of the
`BinarySensitivityAtSpecificity` docstring example (preds
`[0, 0.5, 0.4, 0.1]`, target `[0, 1, 1, 1]`, bound `0.5`). -/
theorem sensitivity_at_specificity_max_first_witness :
    (∃ p ∈ [RocPoint.mk 0 (1/3) (1/2), RocPoint.mk 0 (2/3) (2/5),
        RocPoint.mk 0 1 (1/10), RocPoint.mk 1 1 0], (1:ℚ)/2 ≤ specificityOf p) ∧
    (∃ p l₁ l₂,
      p ∈ [RocPoint.mk 0 (1/3) (1/2), RocPoint.mk 0 (2/3) (2/5),
        RocPoint.mk 0 1 (1/10), RocPoint.mk 1 1 0] ∧ (1:ℚ)/2 ≤ specificityOf p ∧
      sensAtSpecScan [RocPoint.mk 0 (1/3) (1/2), RocPoint.mk 0 (2/3) (2/5),
        RocPoint.mk 0 1 (1/10), RocPoint.mk 1 1 0] (1/2) = (p.tpr, p.thr) ∧
      [RocPoint.mk 0 (1/3) (1/2), RocPoint.mk 0 (2/3) (2/5),
        RocPoint.mk 0 1 (1/10), RocPoint.mk 1 1 0].filter
          (fun q => decide ((1:ℚ)/2 ≤ specificityOf q)) = l₁ ++ p :: l₂ ∧
      (∀ q ∈ l₁, q.tpr < p.tpr) ∧
      (∀ q ∈ l₂, q.tpr ≤ p.tpr)) := by
  constructor
  · exact ⟨RocPoint.mk 0 (1/3) (1/2), by simp, by norm_num [specificityOf]⟩
  · exact sensitivity_at_specificity_max_first _ _
      ⟨RocPoint.mk 0 (1/3) (1/2), by simp, by norm_num [specificityOf]⟩

/-- Evaluation anchor: on the docstring example curve the scan returns
sensitivity 1 at threshold 0.1, matching the documented output
`(tensor(1.), tensor(0.1000))`. -/
theorem sensAtSpecScan_docstring_example :
    sensAtSpecScan [RocPoint.mk 0 (1/3) (1/2), RocPoint.mk 0 (2/3) (2/5),
      RocPoint.mk 0 1 (1/10), RocPoint.mk 1 1 0] (1/2) = (1, 1/10) := by
  norm_num [sensAtSpecScan, specificityOf, argmaxTpr, List.filter]

/-- Claim C3: when no ROC point reaches the minimum specificity bound, the
scan returns the pair (0, 1e6) and in particular is a total function (no
error). -/
theorem sensitivity_at_specificity_sentinel (curve : List RocPoint) (m : ℚ)
    (h : ∀ p ∈ curve, specificityOf p < m) :
    sensAtSpecScan curve m = (0, 1000000) := by
  have hnil : curve.filter (fun p => decide (m ≤ specificityOf p)) = [] :=
    List.filter_eq_nil_iff.2 (fun a ha => by simpa using not_le.2 (h a ha))
  unfold sensAtSpecScan
  rw [hnil]

/-- Concrete instance of claim C3: a one-point curve of specificity 0 with
bound 1/2 yields the sentinel pair. -/
theorem sensitivity_at_specificity_sentinel_witness :
    (∀ p ∈ [RocPoint.mk 1 1 0], specificityOf p < (1:ℚ)/2) ∧
    sensAtSpecScan [RocPoint.mk 1 1 0] (1/2) = (0, 1000000) := by
  constructor
  · intro p hp
    simp only [List.mem_singleton] at hp
    rw [hp]
    norm_num [specificityOf]
  · exact sensitivity_at_specificity_sentinel _ _ (by
      intro p hp
      simp only [List.mem_singleton] at hp
      rw [hp]
      norm_num [specificityOf])

/-- Confusion counts for one class/label/sample-group: true positives,
false positives, true negatives, false negatives (spec section 3). -/
structure BinCounts where
  tp : ℕ
  fp : ℕ
  tn : ℕ
  fn : ℕ
deriving DecidableEq, Repr

/-- Componentwise addition of confusion counts, as accumulated across
`update` calls by the stat-scores state. -/
def BinCounts.plus (a b : BinCounts) : BinCounts :=
  ⟨a.tp + b.tp, a.fp + b.fp, a.tn + b.tn, a.fn + b.fn⟩

/-- Modelled from the spec: `_safe_divide` as used by
`_negative_predictive_value_reduce` (module
torchmetrics.functional.classification.negative_predictive_value, absent
from src/). Spec section 4.1: "Output: TN/(TN+FN), defined as 0 when the
denominator is 0." -/
def safeDivide (num den : ℚ) : ℚ := if den = 0 then 0 else num / den

/-- Modelled from the spec: the scalar negative-predictive-value formula
TN/(TN+FN) of `_negative_predictive_value_reduce`, matching the
`BinaryNegativePredictiveValue` docstring contract (src lines 39-43): "The
metric is only proper defined when TN + FN != 0. If this case is
encountered a score of 0 is returned." -/
def npvOf (c : BinCounts) : ℚ := safeDivide (c.tn : ℚ) ((c.tn : ℚ) + (c.fn : ℚ))

/-- Pooling (summing) of per-class counts, used by micro averaging. -/
def poolCounts (cs : List BinCounts) : BinCounts :=
  cs.foldl BinCounts.plus ⟨0, 0, 0, 0⟩

/-- Modelled from the spec: micro averaging of
`_negative_predictive_value_reduce`: "pooled counts for micro" (spec
section 4.1): sum the statistics over all classes, then apply the scalar
formula. -/
def npvReduceMicro (cs : List BinCounts) : ℚ := npvOf (poolCounts cs)

/-- Modelled from the spec: macro averaging of
`_negative_predictive_value_reduce`: "unweighted mean for macro" (spec
section 4.1): the per-class values averaged with equal weights. -/
def npvReduceMacro (cs : List BinCounts) : ℚ :=
  (cs.map npvOf).sum / (cs.length : ℚ)

/-- Claim C2: the negative-predictive-value reduction returns TN/(TN+FN)
and returns 0 whenever TN+FN = 0; in particular with TN = FN = 0 it
returns 0 (for any TP and FP), with no error raised (`npvOf` is total). -/
theorem npv_reduce_zero_denominator (c : BinCounts) :
    npvOf c = (if c.tn + c.fn = 0 then 0 else (c.tn : ℚ) / ((c.tn : ℚ) + (c.fn : ℚ))) ∧
    npvOf ⟨c.tp, c.fp, 0, 0⟩ = 0 := by
  constructor
  · have hcast : ((c.tn : ℚ) + (c.fn : ℚ)) = (((c.tn + c.fn : ℕ)) : ℚ) := by
      push_cast
      ring
    by_cases h : c.tn + c.fn = 0
    · have h1 : c.tn = 0 := by omega
      have h2 : c.fn = 0 := by omega
      simp [npvOf, safeDivide, h1, h2]
    · have hne : (((c.tn + c.fn : ℕ)) : ℚ) ≠ 0 := Nat.cast_ne_zero.2 h
      unfold npvOf safeDivide
      rw [hcast, if_neg hne, if_neg h, ← hcast]
  · simp [npvOf, safeDivide]

/-- Auxiliary: the tn component of a left fold of count sums. -/
theorem foldl_plus_tn (cs : List BinCounts) (a : BinCounts) :
    (cs.foldl BinCounts.plus a).tn = a.tn + (cs.map BinCounts.tn).sum := by
  induction cs generalizing a with
  | nil => simp
  | cons c cs ih =>
    simp only [List.foldl_cons, List.map_cons, List.sum_cons, ih, BinCounts.plus]
    omega

/-- Auxiliary: the fn component of a left fold of count sums. -/
theorem foldl_plus_fn (cs : List BinCounts) (a : BinCounts) :
    (cs.foldl BinCounts.plus a).fn = a.fn + (cs.map BinCounts.fn).sum := by
  induction cs generalizing a with
  | nil => simp
  | cons c cs ih =>
    simp only [List.foldl_cons, List.map_cons, List.sum_cons, ih, BinCounts.plus]
    omega

/-- Claim C5: micro-averaged NPV equals TN/(TN+FN) on the counts pooled
(summed) over all classes, and macro-averaged NPV equals the unweighted
arithmetic mean of the per-class NPV values. -/
theorem npv_micro_pooled_macro_mean (cs : List BinCounts) :
    npvReduceMicro cs
        = safeDivide (((cs.map BinCounts.tn).sum : ℕ) : ℚ)
            ((((cs.map BinCounts.tn).sum : ℕ) : ℚ) + (((cs.map BinCounts.fn).sum : ℕ) : ℚ)) ∧
    npvReduceMacro cs = (cs.map npvOf).sum / (cs.length : ℚ) := by
  refine ⟨?_, rfl⟩
  unfold npvReduceMicro npvOf poolCounts
  rw [foldl_plus_tn, foldl_plus_fn]
  simp

/-- Modelled from the spec: the per-class one-vs-rest confusion counts
accumulated by `MulticlassStatScores` (module absent from src/), on
(prediction, target) label pairs, following the `multidim_average='global'`
description of the `MulticlassNegativePredictiveValue` docstring. -/
def multiclassCounts (numClasses : ℕ) (pairs : List (ℕ × ℕ)) : List BinCounts :=
  (List.range numClasses).map (fun c =>
    ⟨pairs.countP (fun x => decide (x.1 = c) && decide (x.2 = c)),
     pairs.countP (fun x => decide (x.1 = c) && !decide (x.2 = c)),
     pairs.countP (fun x => !decide (x.1 = c) && !decide (x.2 = c)),
     pairs.countP (fun x => !decide (x.1 = c) && decide (x.2 = c))⟩)

/-- Evaluation anchor: the `NegativePredictiveValue` legacy docstring
example (preds `[2, 0, 2, 1]`, target `[1, 1, 2, 0]`, 3 classes) gives
macro 2/3 (documented `tensor(0.6667)`) and micro 5/8 (documented
`tensor(0.6250)`), confirming the modelled reduction against src. -/
theorem npv_legacy_docstring_example :
    npvReduceMicro (multiclassCounts 3 [(2, 1), (0, 1), (2, 2), (1, 0)]) = 5/8 ∧
    npvReduceMacro (multiclassCounts 3 [(2, 1), (0, 1), (2, 2), (1, 0)]) = 2/3 := by
  constructor <;>
    norm_num [multiclassCounts, npvReduceMicro, npvReduceMacro, poolCounts,
      npvOf, safeDivide, BinCounts.plus, List.range_succ, List.countP_cons]

/-- Modelled from the spec: true positives of the thresholded predictions
at threshold `t`, over (prediction score, target label) pairs, as counted
by the binned `_binary_precision_recall_curve_update` (module absent from
src/): a pair is predicted positive when its score is at least `t`. -/
def tpAt (data : List (ℚ × ℕ)) (t : ℚ) : ℕ :=
  data.countP (fun x => decide (t ≤ x.1) && decide (x.2 = 1))

/-- Modelled from the spec: false positives at threshold `t`. -/
def fpAt (data : List (ℚ × ℕ)) (t : ℚ) : ℕ :=
  data.countP (fun x => decide (t ≤ x.1) && decide (x.2 = 0))

/-- Number of positive samples. -/
def posCount (data : List (ℚ × ℕ)) : ℕ := data.countP (fun x => decide (x.2 = 1))

/-- Number of negative samples. -/
def negCount (data : List (ℚ × ℕ)) : ℕ := data.countP (fun x => decide (x.2 = 0))

/-- Modelled from the spec: sensitivity (true positive rate) at threshold
`t`; the all-positive-absent degenerate case is defined as 0, as in the
test reference (`sensitivity[np.isnan(sensitivity)] = 0.0`, line 49). -/
def sensAt (data : List (ℚ × ℕ)) (t : ℚ) : ℚ :=
  if posCount data = 0 then 0 else (tpAt data t : ℚ) / (posCount data : ℚ)

/-- Modelled from the spec: false positive rate at threshold `t`; the
all-negative-absent degenerate case is defined as 0, as in the test
reference (`fpr = np.zeros_like(thresholds)`, lines 53-54). -/
def fprAt (data : List (ℚ × ℕ)) (t : ℚ) : ℚ :=
  if negCount data = 0 then 0 else (fpAt data t : ℚ) / (negCount data : ℚ)

/-- The ROC point produced by operating at threshold `t`. -/
def rocPointAt (data : List (ℚ × ℕ)) (t : ℚ) : RocPoint :=
  ⟨fprAt data t, sensAt data t, t⟩

/-- Modelled from the spec: the binned ROC curve, one operating point per
given threshold bin ("will use the indicated thresholds in the list as
bins for the calculation", class docstring). -/
def binnedCurve (data : List (ℚ × ℕ)) (ths : List ℚ) : List RocPoint :=
  ths.map (rocPointAt data)

/-- Modelled from the spec: the non-binned thresholds are "dynamically
calculated from all the data" (class docstring): the distinct prediction
scores. -/
def unbinnedThresholds (data : List (ℚ × ℕ)) : List ℚ :=
  (data.map Prod.fst).dedup

/-- The binned sensitivity-at-specificity metric: ROC points at the given
threshold bins, then the scan. -/
def binarySaSBinned (data : List (ℚ × ℕ)) (ths : List ℚ) (m : ℚ) : ℚ × ℚ :=
  sensAtSpecScan (binnedCurve data ths) m

/-- The non-binned sensitivity-at-specificity metric: ROC points at the
thresholds taken from the data, then the scan. -/
def binarySaSUnbinned (data : List (ℚ × ℕ)) (m : ℚ) : ℚ × ℚ :=
  sensAtSpecScan (binnedCurve data (unbinnedThresholds data)) m

/-- Evaluation anchor: the `BinarySensitivityAtSpecificity` docstring
example. Non-binned (`thresholds=None`) returns `(1.0, 0.1)` and binned
with `thresholds=5`, i.e. bins `[0, 0.25, 0.5, 0.75, 1]`, returns
`(0.6667, 0.25)`, exactly the documented outputs. -/
theorem binary_sas_docstring_example :
    binarySaSUnbinned [(0, 0), (1/2, 1), (2/5, 1), (1/10, 1)] (1/2) = (1, 1/10) ∧
    binarySaSBinned [(0, 0), (1/2, 1), (2/5, 1), (1/10, 1)]
      [0, 1/4, 1/2, 3/4, 1] (1/2) = (2/3, 1/4) := by
  constructor <;>
    norm_num [binarySaSUnbinned, binarySaSBinned, unbinnedThresholds, List.dedup,
      binnedCurve, rocPointAt, sensAt, fprAt, tpAt, fpAt, posCount, negCount,
      sensAtSpecScan, specificityOf, argmaxTpr, List.filter, List.countP_cons]

/-- Claim C4 counterexample: on the `BinarySensitivityAtSpecificity`
docstring example (preds `[0, 0.5, 0.4, 0.1]`, target `[0, 1, 1, 1]`,
min_specificity 0.5) the binned version at thresholds `[0, 1/4, 1/2, 3/4, 1]`
(`thresholds=5`) returns sensitivity 2/3 while the non-binned version
returns sensitivity 1: they differ by 1/3, far beyond floating tolerance,
so binned and unbinned do not agree for every thresholds list. -/
theorem binned_unbinned_sensitivity_differ :
    (binarySaSBinned [(0, 0), (1/2, 1), (2/5, 1), (1/10, 1)]
        [0, 1/4, 1/2, 3/4, 1] (1/2)).1 = 2/3 ∧
    (binarySaSUnbinned [(0, 0), (1/2, 1), (2/5, 1), (1/10, 1)] (1/2)).1 = 1 ∧
    (binarySaSBinned [(0, 0), (1/2, 1), (2/5, 1), (1/10, 1)]
        [0, 1/4, 1/2, 3/4, 1] (1/2)).1
      ≠ (binarySaSUnbinned [(0, 0), (1/2, 1), (2/5, 1), (1/10, 1)] (1/2)).1 := by
  refine ⟨?_, ?_, ?_⟩ <;>
    norm_num [binarySaSUnbinned, binarySaSBinned, unbinnedThresholds, List.dedup,
      binnedCurve, rocPointAt, sensAt, fprAt, tpAt, fpAt, posCount, negCount,
      sensAtSpecScan, specificityOf, argmaxTpr, List.filter, List.countP_cons]

/-- Auxiliary: a nonempty list of rationals has a least element. -/
theorem exists_min_mem (l : List ℚ) (h : l ≠ []) : ∃ a ∈ l, ∀ b ∈ l, a ≤ b := by
  induction l with
  | nil => exact absurd rfl h
  | cons x xs ih =>
    rcases eq_or_ne xs [] with hxs | hxs
    · subst hxs
      refine ⟨x, List.mem_cons_self x [], ?_⟩
      intro b hb
      simp only [List.mem_singleton] at hb
      exact le_of_eq hb.symm
    · obtain ⟨a, hal, hmin⟩ := ih hxs
      rcases le_total x a with hxa | hax
      · refine ⟨x, List.mem_cons_self x xs, ?_⟩
        intro b hb
        rcases List.mem_cons.1 hb with hbx | hbxs
        · exact le_of_eq hbx.symm
        · exact le_trans hxa (hmin b hbxs)
      · refine ⟨a, List.mem_cons_of_mem x hal, ?_⟩
        intro b hb
        rcases List.mem_cons.1 hb with hbx | hbxs
        · rw [hbx]; exact hax
        · exact hmin b hbxs

/-- Auxiliary: the fold of max with base 0 is nonnegative. -/
theorem foldr_max_nonneg (l : List ℚ) : 0 ≤ l.foldr max 0 := by
  induction l with
  | nil => exact le_refl 0
  | cons x xs ih => exact le_trans ih (le_max_right x (xs.foldr max 0))

/-- Auxiliary: every member is at most the fold of max with base 0. -/
theorem le_foldr_max (l : List ℚ) (a : ℚ) (ha : a ∈ l) : a ≤ l.foldr max 0 := by
  induction l with
  | nil => cases ha
  | cons x xs ih =>
    rcases List.mem_cons.1 ha with hax | haxs
    · rw [hax]; exact le_max_left x (xs.foldr max 0)
    · exact le_trans (ih haxs) (le_max_right x (xs.foldr max 0))

/-- Auxiliary: the fold of max with base 0 is at most any nonnegative
upper bound of the list. -/
theorem foldr_max_le (l : List ℚ) (c : ℚ) (hub : ∀ x ∈ l, x ≤ c) (h0 : 0 ≤ c) :
    l.foldr max 0 ≤ c := by
  induction l with
  | nil => exact h0
  | cons x xs ih =>
    exact max_le (hub x (List.mem_cons_self x xs))
      (ih (fun y hy => hub y (List.mem_cons_of_mem x hy)))

/-- Auxiliary: `argmaxTpr b l` is an element of `b :: l`. -/
theorem argmaxTpr_mem (b : RocPoint) (l : List RocPoint) : argmaxTpr b l ∈ b :: l := by
  obtain ⟨l₁, l₂, heq, _, _⟩ := argmaxTpr_decomp b l
  rw [heq]
  exact List.mem_append.2 (Or.inr (List.mem_cons_self _ _))

/-- Auxiliary: `argmaxTpr b l` has the largest tpr in `b :: l`. -/
theorem argmaxTpr_ge (b : RocPoint) (l : List RocPoint) :
    ∀ q ∈ b :: l, q.tpr ≤ (argmaxTpr b l).tpr := by
  obtain ⟨l₁, l₂, heq, hlt, hle⟩ := argmaxTpr_decomp b l
  intro q hq
  rw [heq] at hq
  rcases List.mem_append.1 hq with h1 | h2
  · exact le_of_lt (hlt q h1)
  · rcases List.mem_cons.1 h2 with h3 | h4
    · exact le_of_eq (congrArg RocPoint.tpr h3)
    · exact hle q h4

/-- Auxiliary: when every curve point has nonnegative tpr, the sensitivity
component of the scan equals the max-fold of the qualifying tprs (with 0
for the empty qualifying set). -/
theorem scan_fst_eq_foldr (curve : List RocPoint) (m : ℚ)
    (h0 : ∀ p ∈ curve, 0 ≤ p.tpr) :
    (sensAtSpecScan curve m).1
      = ((curve.filter (fun p => decide (m ≤ specificityOf p))).map RocPoint.tpr).foldr max 0 := by
  cases hfq : curve.filter (fun p => decide (m ≤ specificityOf p)) with
  | nil =>
    have hscan : sensAtSpecScan curve m = (0, 1000000) := by
      unfold sensAtSpecScan
      rw [hfq]
    rw [hscan]
    rfl
  | cons q qs =>
    have hscan : sensAtSpecScan curve m = ((argmaxTpr q qs).tpr, (argmaxTpr q qs).thr) := by
      unfold sensAtSpecScan
      rw [hfq]
    have hmem : (argmaxTpr q qs).tpr ∈ (q :: qs).map RocPoint.tpr :=
      List.mem_map.2 ⟨argmaxTpr q qs, argmaxTpr_mem q qs, rfl⟩
    have h0arg : 0 ≤ (argmaxTpr q qs).tpr := by
      have hmem2 : argmaxTpr q qs ∈ curve := by
        have : argmaxTpr q qs ∈ curve.filter (fun p => decide (m ≤ specificityOf p)) := by
          rw [hfq]
          exact argmaxTpr_mem q qs
        exact (List.mem_filter.1 this).1
      exact h0 _ hmem2
    have hub : ∀ x ∈ (q :: qs).map RocPoint.tpr, x ≤ (argmaxTpr q qs).tpr := by
      intro x hx
      obtain ⟨p, hp, hpx⟩ := List.mem_map.1 hx
      rw [← hpx]
      exact argmaxTpr_ge q qs p hp
    rw [hscan]
    exact le_antisymm (le_foldr_max _ _ hmem)
      (foldr_max_le _ _ hub h0arg)

/-- Auxiliary: sensitivity values are nonnegative. -/
theorem sensAt_nonneg (data : List (ℚ × ℕ)) (t : ℚ) : 0 ≤ sensAt data t := by
  unfold sensAt
  split
  · exact le_refl 0
  · exact div_nonneg (Nat.cast_nonneg _) (Nat.cast_nonneg _)

/-- Auxiliary: thresholds that cut the prediction scores identically give
the same true positive count. -/
theorem tpAt_congr (data : List (ℚ × ℕ)) (t u : ℚ)
    (hiff : ∀ x ∈ data, (t ≤ x.1 ↔ u ≤ x.1)) : tpAt data t = tpAt data u :=
  List.countP_congr (fun x hx => by simp [hiff x hx])

/-- Auxiliary: thresholds that cut the prediction scores identically give
the same false positive count. -/
theorem fpAt_congr (data : List (ℚ × ℕ)) (t u : ℚ)
    (hiff : ∀ x ∈ data, (t ≤ x.1 ↔ u ≤ x.1)) : fpAt data t = fpAt data u :=
  List.countP_congr (fun x hx => by simp [hiff x hx])

/-- Auxiliary: thresholds that cut the prediction scores identically give
the same sensitivity. -/
theorem sensAt_congr (data : List (ℚ × ℕ)) (t u : ℚ)
    (hiff : ∀ x ∈ data, (t ≤ x.1 ↔ u ≤ x.1)) : sensAt data t = sensAt data u := by
  unfold sensAt
  rw [tpAt_congr data t u hiff]

/-- Auxiliary: thresholds that cut the prediction scores identically give
the same false positive rate. -/
theorem fprAt_congr (data : List (ℚ × ℕ)) (t u : ℚ)
    (hiff : ∀ x ∈ data, (t ≤ x.1 ↔ u ≤ x.1)) : fprAt data t = fprAt data u := by
  unfold fprAt
  rw [fpAt_congr data t u hiff]

/-- Claim C4, amended: for every predictions/targets input and every
thresholds list that contains every prediction score as a bin, the binned
and the non-binned sensitivity-at-specificity return the same sensitivity
value (exactly, over the rationals). This is the regime exercised by
`test_binary_sensitivity_at_specificity_threshold_arg`, where predictions
are rounded onto the bin grid; for thresholds lists that do not cover the
prediction scores the two versions may differ (see
`binned_unbinned_sensitivity_differ`). -/
theorem binned_covering_eq_unbinned (data : List (ℚ × ℕ)) (ths : List ℚ) (m : ℚ)
    (hcov : ∀ x ∈ data, x.1 ∈ ths) :
    (binarySaSBinned data ths m).1 = (binarySaSUnbinned data m).1 := by
  have h0 : ∀ (l : List ℚ), ∀ p ∈ binnedCurve data l, 0 ≤ p.tpr := by
    intro l p hp
    obtain ⟨t, _, ht⟩ := List.mem_map.1 hp
    rw [← ht]
    exact sensAt_nonneg data t
  unfold binarySaSBinned binarySaSUnbinned
  rw [scan_fst_eq_foldr _ _ (h0 ths), scan_fst_eq_foldr _ _ (h0 (unbinnedThresholds data))]
  apply le_antisymm
  · refine foldr_max_le _ _ ?_ (foldr_max_nonneg _)
    intro s hs
    obtain ⟨p, hp, hps⟩ := List.mem_map.1 hs
    obtain ⟨hpc, hq⟩ := List.mem_filter.1 hp
    obtain ⟨t, htths, hpt⟩ := List.mem_map.1 hpc
    by_cases htp : tpAt data t = 0
    · have hzero : p.tpr = 0 := by
        rw [← hpt]
        show sensAt data t = 0
        unfold sensAt
        split
        · rfl
        · rw [htp]
          simp
      rw [← hps, hzero]
      exact foldr_max_nonneg _
    · have hpos : 0 < data.countP (fun x => decide (t ≤ x.1) && decide (x.2 = 1)) :=
        Nat.pos_of_ne_zero htp
      obtain ⟨w, hw, hwP⟩ := List.countP_pos_iff.1 hpos
      have hwt : t ≤ w.1 := by
        have := hwP
        simp only [Bool.and_eq_true, decide_eq_true_eq] at this
        exact this.1
      have hwfl : w.1 ∈ (data.filter (fun x => decide (t ≤ x.1))).map Prod.fst :=
        List.mem_map.2 ⟨w, List.mem_filter.2 ⟨hw, by simp [hwt]⟩, rfl⟩
      have hflne : (data.filter (fun x => decide (t ≤ x.1))).map Prod.fst ≠ [] := by
        intro hnil
        rw [hnil] at hwfl
        cases hwfl
      obtain ⟨a, hafl, hamin⟩ := exists_min_mem _ hflne
      obtain ⟨y, hyf, hya⟩ := List.mem_map.1 hafl
      obtain ⟨hyd, hyt⟩ := List.mem_filter.1 hyf
      have hta : t ≤ a := by
        rw [← hya]
        simpa using hyt
      have hiff : ∀ x ∈ data, (t ≤ x.1 ↔ a ≤ x.1) := by
        intro x hx
        constructor
        · intro htx
          exact hamin x.1 (List.mem_map.2 ⟨x, List.mem_filter.2 ⟨hx, by simp [htx]⟩, rfl⟩)
        · intro hax
          exact le_trans hta hax
      have hsens : sensAt data t = sensAt data a := sensAt_congr data t a hiff
      have hfpr : fprAt data t = fprAt data a := fprAt_congr data t a hiff
      have hamem : a ∈ unbinnedThresholds data := by
        unfold unbinnedThresholds
        exact List.mem_dedup.2 (List.mem_map.2 ⟨y, hyd, hya⟩)
      have hmspec : m ≤ 1 - fprAt data t := by
        have hmp := of_decide_eq_true hq
        rw [← hpt] at hmp
        simpa [specificityOf, rocPointAt] using hmp
      have hqual : decide (m ≤ specificityOf (rocPointAt data a)) = true := by
        have : m ≤ 1 - fprAt data a := hfpr ▸ hmspec
        simpa [specificityOf, rocPointAt] using this
      have htprmem : (rocPointAt data a).tpr ∈
          ((binnedCurve data (unbinnedThresholds data)).filter
            (fun p => decide (m ≤ specificityOf p))).map RocPoint.tpr :=
        List.mem_map.2 ⟨rocPointAt data a,
          List.mem_filter.2 ⟨List.mem_map.2 ⟨a, hamem, rfl⟩, hqual⟩, rfl⟩
      have hle := le_foldr_max _ _ htprmem
      rw [← hps, ← hpt]
      show sensAt data t ≤ _
      rw [hsens]
      exact hle
  · refine foldr_max_le _ _ ?_ (foldr_max_nonneg _)
    intro s hs
    obtain ⟨p, hp, hps⟩ := List.mem_map.1 hs
    obtain ⟨hpc, hq⟩ := List.mem_filter.1 hp
    obtain ⟨t, htun, hpt⟩ := List.mem_map.1 hpc
    have htfst : t ∈ data.map Prod.fst := by
      unfold unbinnedThresholds at htun
      exact List.mem_dedup.1 htun
    obtain ⟨x, hx, hxt⟩ := List.mem_map.1 htfst
    have htths : t ∈ ths := hxt ▸ hcov x hx
    have hmemb : p.tpr ∈
        ((binnedCurve data ths).filter (fun p => decide (m ≤ specificityOf p))).map
          RocPoint.tpr :=
      List.mem_map.2 ⟨p, List.mem_filter.2 ⟨List.mem_map.2 ⟨t, htths, hpt⟩, hq⟩, rfl⟩
    rw [← hps]
    exact le_foldr_max _ _ hmemb

/-- Concrete instance of the amended claim C4: data whose scores `1/2` and
`0` both occur in the bins `[0, 1/2, 1]`; binned and non-binned
sensitivities agree. -/
theorem binned_covering_eq_unbinned_witness :
    (∀ x ∈ [((1:ℚ)/2, 1), (0, 0)], x.1 ∈ [(0:ℚ), 1/2, 1]) ∧
    (binarySaSBinned [((1:ℚ)/2, 1), (0, 0)] [0, 1/2, 1] (1/2)).1
      = (binarySaSUnbinned [((1:ℚ)/2, 1), (0, 0)] (1/2)).1 := by
  constructor
  · intro x hx
    rcases List.mem_cons.1 hx with h1 | h2
    · rw [h1]; simp
    · simp only [List.mem_singleton] at h2
      rw [h2]; simp
  · refine binned_covering_eq_unbinned _ _ _ ?_
    intro x hx
    rcases List.mem_cons.1 hx with h1 | h2
    · rw [h1]; simp
    · simp only [List.mem_singleton] at h2
      rw [h2]; simp

/-- The classification task selector of the task wrappers. -/
inductive ClassificationTask where
  | binary
  | multiclass
  | multilabel
deriving DecidableEq, Repr

/-- Modelled from the spec: `ClassificationTask.from_str`
(torchmetrics.utilities.enums, absent from src/), called first by both
`SensitivityAtSpecificity.__new__` and `NegativePredictiveValue.__new__`
(src); an unsupported task string raises a ValueError matching
"Invalid *", as asserted by `test_wrapper_class` (test file lines
487-496). -/
def classificationTaskFromStr (s : String) : Except String ClassificationTask :=
  if s = "binary" then Except.ok ClassificationTask.binary
  else if s = "multiclass" then Except.ok ClassificationTask.multiclass
  else if s = "multilabel" then Except.ok ClassificationTask.multilabel
  else Except.error ("Invalid Classification Task: " ++ s)

/-- The thresholds constructor argument: dynamic (python `None`), an
integer bin count, or an explicit list of bin values. -/
inductive ThresholdsArg where
  | dynamic
  | count (n : ℤ)
  | values (ts : List ℚ)
deriving DecidableEq, Repr

/-- Modelled from the spec: the thresholds part of
`_binary_sensitivity_at_specificity_arg_validation` (functional module,
absent from src/): an integer thresholds argument must be "larger than 1"
(class docstring line 75); `None` and explicit lists are accepted. -/
def validThresholds : ThresholdsArg → Bool
  | ThresholdsArg.dynamic => true
  | ThresholdsArg.count n => decide (1 < n)
  | ThresholdsArg.values _ => true

/-- The arguments retained by a successfully constructed
sensitivity-at-specificity metric. -/
structure SaSSpec where
  task : ClassificationTask
  clsCount : ℤ
  minSpecificity : ℚ
  thresholds : ThresholdsArg
deriving DecidableEq, Repr

/-- Modelled from the spec: `BinarySensitivityAtSpecificity.__init__`
(src lines 111-124) runs `_binary_sensitivity_at_specificity_arg_validation`
when `validate_args` is set; validation failures are construction-time
errors. -/
def binarySaSNew (minSpec : ℚ) (th : ThresholdsArg) (validateArgs : Bool) :
    Except String SaSSpec :=
  if validateArgs && !(validThresholds th) then Except.error "Invalid thresholds"
  else Except.ok ⟨ClassificationTask.binary, 1, minSpec, th⟩

/-- Modelled from the spec: `MulticlassSensitivityAtSpecificity.__init__`:
validation additionally rejects a non-positive number of classes (spec
section 7). -/
def multiclassSaSNew (numClasses : ℤ) (minSpec : ℚ) (th : ThresholdsArg)
    (validateArgs : Bool) : Except String SaSSpec :=
  if validateArgs && !(decide (0 < numClasses) && validThresholds th) then
    Except.error "Invalid arguments"
  else Except.ok ⟨ClassificationTask.multiclass, numClasses, minSpec, th⟩

/-- Modelled from the spec: `MultilabelSensitivityAtSpecificity.__init__`:
validation additionally rejects a non-positive number of labels. -/
def multilabelSaSNew (numLabels : ℤ) (minSpec : ℚ) (th : ThresholdsArg)
    (validateArgs : Bool) : Except String SaSSpec :=
  if validateArgs && !(decide (0 < numLabels) && validThresholds th) then
    Except.error "Invalid arguments"
  else Except.ok ⟨ClassificationTask.multilabel, numLabels, minSpec, th⟩

/-- Embedded from src `SensitivityAtSpecificity.__new__` (lines 348-375):
resolve the task string, then dispatch to the task-specific constructor,
requiring `num_classes`/`num_labels` for the multiclass/multilabel
branches. -/
def sensitivityAtSpecificityNew (task : String) (minSpec : ℚ) (th : ThresholdsArg)
    (numClasses numLabels : Option ℤ) (validateArgs : Bool) : Except String SaSSpec :=
  match classificationTaskFromStr task with
  | Except.error e => Except.error e
  | Except.ok ClassificationTask.binary => binarySaSNew minSpec th validateArgs
  | Except.ok ClassificationTask.multiclass =>
    match numClasses with
    | Option.none => Except.error "num_classes is expected to be int"
    | Option.some n => multiclassSaSNew n minSpec th validateArgs
  | Except.ok ClassificationTask.multilabel =>
    match numLabels with
    | Option.none => Except.error "num_labels is expected to be int"
    | Option.some n => multilabelSaSNew n minSpec th validateArgs

/-- The metric object produced by the `NegativePredictiveValue` wrapper. -/
inductive NpvSpec where
  | binary (threshold : ℚ)
  | multiclass (numClasses : ℤ) (topK : ℤ) (average : String)
  | multilabel (numLabels : ℤ) (threshold : ℚ) (average : String)
deriving DecidableEq, Repr

/-- Modelled from the spec: the allowed averaging modes, "enumerated
{micro, macro, weighted, none}" (spec section 3). -/
def validAverage (s : String) : Bool :=
  s = "micro" || s = "macro" || s = "weighted" || s = "none"

/-- Modelled from the spec: `BinaryNegativePredictiveValue` construction
(no averaging mode or class count to validate in the binary task). -/
def binaryNpvNew (threshold : ℚ) (_validateArgs : Bool) : Except String NpvSpec :=
  Except.ok (NpvSpec.binary threshold)

/-- Modelled from the spec: `MulticlassNegativePredictiveValue`
construction; with validation enabled it rejects an invalid averaging mode
or a non-positive number of classes (spec section 7). -/
def multiclassNpvNew (numClasses : ℤ) (topK : ℤ) (average : String)
    (validateArgs : Bool) : Except String NpvSpec :=
  if validateArgs && !(decide (0 < numClasses) && validAverage average) then
    Except.error "Invalid arguments"
  else Except.ok (NpvSpec.multiclass numClasses topK average)

/-- Modelled from the spec: `MultilabelNegativePredictiveValue`
construction. -/
def multilabelNpvNew (numLabels : ℤ) (threshold : ℚ) (average : String)
    (validateArgs : Bool) : Except String NpvSpec :=
  if validateArgs && !(decide (0 < numLabels) && validAverage average) then
    Except.error "Invalid arguments"
  else Except.ok (NpvSpec.multilabel numLabels threshold average)

/-- Embedded from src `NegativePredictiveValue.__new__` (lines 489-522):
the `average` parameter has python default value `"micro"` (line 495),
modelled by an `Option` argument read with default "micro"; the task
string is resolved first and the task-specific constructor is called. -/
def negativePredictiveValueNew (task : String) (threshold : ℚ)
    (numClasses numLabels : Option ℤ) (average : Option String) (topK : ℤ)
    (validateArgs : Bool) : Except String NpvSpec :=
  let avg := average.getD "micro"
  match classificationTaskFromStr task with
  | Except.error e => Except.error e
  | Except.ok ClassificationTask.binary => binaryNpvNew threshold validateArgs
  | Except.ok ClassificationTask.multiclass =>
    match numClasses with
    | Option.none => Except.error "num_classes is expected to be int"
    | Option.some n => multiclassNpvNew n topK avg validateArgs
  | Except.ok ClassificationTask.multilabel =>
    match numLabels with
    | Option.none => Except.error "num_labels is expected to be int"
    | Option.some n => multilabelNpvNew n threshold avg validateArgs

/-- Whether a constructor result is an error. -/
def isError {α : Type} (e : Except String α) : Bool :=
  match e with
  | Except.error _ => true
  | Except.ok _ => false

/-- Claim C6: with argument validation enabled, a constructor call with an
unsupported task string, a non-positive number of classes, an integer
thresholds argument not larger than 1, or an invalid averaging mode
returns a user-facing error at construction time, so no metric object is
produced and no data can be accumulated. -/
theorem constructor_rejects_invalid_args :
    (∀ (task : String) (minSpec : ℚ) (th : ThresholdsArg) (nc nl : Option ℤ) (va : Bool),
      task ≠ "binary" → task ≠ "multiclass" → task ≠ "multilabel" →
      isError (sensitivityAtSpecificityNew task minSpec th nc nl va) = true) ∧
    (∀ (n : ℤ) (minSpec : ℚ) (th : ThresholdsArg) (nl : Option ℤ),
      n ≤ 0 →
      isError (sensitivityAtSpecificityNew "multiclass" minSpec th
        (Option.some n) nl true) = true) ∧
    (∀ (minSpec : ℚ) (n : ℤ) (nc nl : Option ℤ),
      n ≤ 1 →
      isError (sensitivityAtSpecificityNew "binary" minSpec
        (ThresholdsArg.count n) nc nl true) = true) ∧
    (∀ (avg : String) (threshold : ℚ) (n : ℤ) (nl : Option ℤ) (k : ℤ),
      validAverage avg = false →
      isError (negativePredictiveValueNew "multiclass" threshold
        (Option.some n) nl (Option.some avg) k true) = true) := by
  refine ⟨?_, ?_, ?_, ?_⟩
  · intro task minSpec th nc nl va h1 h2 h3
    simp [sensitivityAtSpecificityNew, classificationTaskFromStr, h1, h2, h3, isError]
  · intro n minSpec th nl h
    have hd : decide ((0:ℤ) < n) = false := decide_eq_false (not_lt.2 h)
    simp [sensitivityAtSpecificityNew, classificationTaskFromStr, multiclassSaSNew,
      hd, isError]
  · intro minSpec n nc nl h
    have hd : decide ((1:ℤ) < n) = false := decide_eq_false (not_lt.2 h)
    simp [sensitivityAtSpecificityNew, classificationTaskFromStr, binarySaSNew,
      validThresholds, hd, isError]
  · intro avg threshold n nl k h
    simp [negativePredictiveValueNew, classificationTaskFromStr, multiclassNpvNew,
      h, isError]

/-- Concrete instances of claim C6: the invalid task string of
`test_wrapper_class`, zero classes, the integer thresholds 1, and a
misspelled averaging mode are all rejected. -/
theorem constructor_rejects_invalid_args_witness :
    isError (sensitivityAtSpecificityNew "not_valid_task" (1/2) ThresholdsArg.dynamic
      Option.none Option.none true) = true ∧
    isError (sensitivityAtSpecificityNew "multiclass" (1/2) ThresholdsArg.dynamic
      (Option.some 0) Option.none true) = true ∧
    isError (sensitivityAtSpecificityNew "binary" (1/2) (ThresholdsArg.count 1)
      Option.none Option.none true) = true ∧
    isError (negativePredictiveValueNew "multiclass" (1/2) (Option.some 3)
      Option.none (Option.some "mean") 1 true) = true :=
  ⟨constructor_rejects_invalid_args.1 "not_valid_task" _ _ _ _ _
      (by decide) (by decide) (by decide),
   constructor_rejects_invalid_args.2.1 0 _ _ _ (by decide),
   constructor_rejects_invalid_args.2.2.1 _ 1 _ _ (by decide),
   constructor_rejects_invalid_args.2.2.2 "mean" _ _ _ _ (by decide)⟩

/-- Claim C10: the `NegativePredictiveValue` wrapper defaults the
averaging mode to "micro": constructing without an average argument is
identical to constructing with average="micro", and in particular a plain
multiclass construction stores average "micro". -/
theorem npv_wrapper_default_average_micro :
    (∀ (task : String) (thr : ℚ) (nc nl : Option ℤ) (k : ℤ) (va : Bool),
      negativePredictiveValueNew task thr nc nl Option.none k va
        = negativePredictiveValueNew task thr nc nl (Option.some "micro") k va) ∧
    (∀ (n : ℤ) (thr : ℚ) (nl : Option ℤ) (k : ℤ) (va : Bool), 0 < n →
      negativePredictiveValueNew "multiclass" thr (Option.some n) nl Option.none k va
        = Except.ok (NpvSpec.multiclass n k "micro")) := by
  constructor
  · intro task thr nc nl k va
    rfl
  · intro n thr nl k va h
    have hd : decide ((0:ℤ) < n) = true := decide_eq_true h
    simp [negativePredictiveValueNew, classificationTaskFromStr, multiclassNpvNew,
      validAverage, hd]

/-- Concrete instance of claim C10 at 3 classes. -/
theorem npv_wrapper_default_average_micro_witness :
    negativePredictiveValueNew "binary" (1/2) Option.none Option.none Option.none 1 true
      = negativePredictiveValueNew "binary" (1/2) Option.none Option.none
          (Option.some "micro") 1 true ∧
    (0:ℤ) < 3 ∧
    negativePredictiveValueNew "multiclass" (1/2) (Option.some 3) Option.none
        Option.none 1 true
      = Except.ok (NpvSpec.multiclass 3 1 "micro") :=
  ⟨npv_wrapper_default_average_micro.1 "binary" _ _ _ _ _,
   by decide,
   npv_wrapper_default_average_micro.2 3 _ _ _ _ (by decide)⟩

/-- Modelled from the spec: the ignore_index filtering of
`_binary_stat_scores_format` (stat_scores module, absent from src/):
"Specifies a target value that is ignored and does not contribute to the
metric calculation" (`BinaryNegativePredictiveValue` docstring). A batch
is a list of (thresholded prediction, target) pairs. -/
def keptPairs (batch : List (ℕ × ℤ)) (ignoreIndex : Option ℤ) : List (ℕ × ℤ) :=
  batch.filter (fun x => decide (Option.some x.2 ≠ ignoreIndex))

/-- Modelled from the spec: one `update` call of `BinaryStatScores`
(absent from src/): classify every kept pair into exactly one of
tp/fp/tn/fn by comparing the thresholded prediction with the target. -/
def binaryStatScoresUpdate (batch : List (ℕ × ℤ)) (ignoreIndex : Option ℤ) : BinCounts :=
  ⟨(keptPairs batch ignoreIndex).countP (fun x => decide (x.1 = 1) && decide (x.2 = 1)),
   (keptPairs batch ignoreIndex).countP (fun x => decide (x.1 = 1) && decide (x.2 = 0)),
   (keptPairs batch ignoreIndex).countP (fun x => decide (x.1 = 0) && decide (x.2 = 0)),
   (keptPairs batch ignoreIndex).countP (fun x => decide (x.1 = 0) && decide (x.2 = 1))⟩

/-- Modelled from the spec: a sequence of accumulate (`update`) calls with
`multidim_average='global'` adds each batch's counts into the state
(spec section 6: "accumulate called repeatedly"). -/
def accumulateCounts (batches : List (List (ℕ × ℤ))) (ignoreIndex : Option ℤ) : BinCounts :=
  batches.foldl (fun c b => c.plus (binaryStatScoresUpdate b ignoreIndex)) ⟨0, 0, 0, 0⟩

/-- The total of the four confusion counts. -/
def BinCounts.total (c : BinCounts) : ℕ := c.tp + c.fp + c.tn + c.fn

/-- Auxiliary: totals add under count addition. -/
theorem total_plus (a b : BinCounts) : (a.plus b).total = a.total + b.total := by
  show (a.tp + b.tp) + (a.fp + b.fp) + (a.tn + b.tn) + (a.fn + b.fn)
    = (a.tp + a.fp + a.tn + a.fn) + (b.tp + b.fp + b.tn + b.fn)
  omega

/-- Auxiliary: the total of a left fold of count sums. -/
theorem foldl_plus_total (cs : List BinCounts) (a : BinCounts) :
    (cs.foldl BinCounts.plus a).total = a.total + (cs.map BinCounts.total).sum := by
  induction cs generalizing a with
  | nil => simp
  | cons c cs ih =>
    rw [List.foldl_cons, ih, total_plus, List.map_cons, List.sum_cons]
    omega

/-- Auxiliary: the four tp/fp/tn/fn predicates partition a list of binary
prediction/target pairs. -/
theorem countP_partition (l : List (ℕ × ℤ))
    (hvalid : ∀ x ∈ l, (x.1 = 0 ∨ x.1 = 1) ∧ (x.2 = 0 ∨ x.2 = 1)) :
    l.countP (fun x => decide (x.1 = 1) && decide (x.2 = 1))
      + l.countP (fun x => decide (x.1 = 1) && decide (x.2 = 0))
      + l.countP (fun x => decide (x.1 = 0) && decide (x.2 = 0))
      + l.countP (fun x => decide (x.1 = 0) && decide (x.2 = 1)) = l.length := by
  induction l with
  | nil => rfl
  | cons x xs ih =>
    have hx := hvalid x (List.mem_cons_self x xs)
    have ihx := ih (fun y hy => hvalid y (List.mem_cons_of_mem x hy))
    simp only [List.countP_cons, List.length_cons]
    rcases hx.1 with h1 | h1 <;> rcases hx.2 with h2 | h2 <;>
      simp only [h1, h2] <;> simp <;> omega

/-- Auxiliary: one update's counts total the number of kept samples. -/
theorem update_total (batch : List (ℕ × ℤ)) (ignoreIndex : Option ℤ)
    (hvalid : ∀ x ∈ batch, (x.1 = 0 ∨ x.1 = 1)
      ∧ (Option.some x.2 = ignoreIndex ∨ x.2 = 0 ∨ x.2 = 1)) :
    (binaryStatScoresUpdate batch ignoreIndex).total
      = (keptPairs batch ignoreIndex).length := by
  apply countP_partition
  intro x hx
  obtain ⟨hxb, hxk⟩ := List.mem_filter.1 hx
  refine ⟨(hvalid x hxb).1, ?_⟩
  rcases (hvalid x hxb).2 with hig | hv
  · exact absurd hig (by simpa using hxk)
  · exact hv

/-- Claim C7: over every sequence of accumulate (`update`) calls with
valid binary inputs, the accumulated confusion counts satisfy
TP + FP + TN + FN = number of observed samples, where samples whose
target equals the ignore_index are excluded from the count. -/
theorem counts_total_eq_samples (batches : List (List (ℕ × ℤ))) (ignoreIndex : Option ℤ)
    (hvalid : ∀ b ∈ batches, ∀ x ∈ b, (x.1 = 0 ∨ x.1 = 1)
      ∧ (Option.some x.2 = ignoreIndex ∨ x.2 = 0 ∨ x.2 = 1)) :
    (accumulateCounts batches ignoreIndex).tp + (accumulateCounts batches ignoreIndex).fp
      + (accumulateCounts batches ignoreIndex).tn + (accumulateCounts batches ignoreIndex).fn
      = (batches.map (fun b => (keptPairs b ignoreIndex).length)).sum := by
  show (accumulateCounts batches ignoreIndex).total = _
  unfold accumulateCounts
  rw [← List.foldl_map (fun b => binaryStatScoresUpdate b ignoreIndex) BinCounts.plus,
    foldl_plus_total, List.map_map]
  have hmaps : batches.map (BinCounts.total ∘ fun b => binaryStatScoresUpdate b ignoreIndex)
      = batches.map (fun b => (keptPairs b ignoreIndex).length) := by
    apply List.map_congr_left
    intro b hb
    exact update_total b ignoreIndex (hvalid b hb)
  rw [hmaps]
  simp [BinCounts.total]

/-- Concrete instance of claim C7: two update calls, with one sample
carrying the ignored target -1, give counts totalling the 3 kept
samples. -/
theorem counts_total_eq_samples_witness :
    (∀ b ∈ [[((1:ℕ), (1:ℤ)), (0, 0), (1, -1)], [((0:ℕ), (1:ℤ))]],
      ∀ x ∈ b, (x.1 = 0 ∨ x.1 = 1)
        ∧ (Option.some x.2 = Option.some (-1) ∨ x.2 = 0 ∨ x.2 = 1)) ∧
    (accumulateCounts [[((1:ℕ), (1:ℤ)), (0, 0), (1, -1)], [((0:ℕ), (1:ℤ))]]
          (Option.some (-1))).tp
      + (accumulateCounts [[((1:ℕ), (1:ℤ)), (0, 0), (1, -1)], [((0:ℕ), (1:ℤ))]]
          (Option.some (-1))).fp
      + (accumulateCounts [[((1:ℕ), (1:ℤ)), (0, 0), (1, -1)], [((0:ℕ), (1:ℤ))]]
          (Option.some (-1))).tn
      + (accumulateCounts [[((1:ℕ), (1:ℤ)), (0, 0), (1, -1)], [((0:ℕ), (1:ℤ))]]
          (Option.some (-1))).fn
      = ([[((1:ℕ), (1:ℤ)), (0, 0), (1, -1)], [((0:ℕ), (1:ℤ))]].map
          (fun b => (keptPairs b (Option.some (-1))).length)).sum :=
  ⟨by decide, counts_total_eq_samples _ _ (by decide)⟩

/-- The state of a `BinarySensitivityAtSpecificity` metric object with
`thresholds=None`: constructor arguments plus the accumulated sample
lists (src line 127 reads `self.preds`/`self.target`). -/
structure BinarySaSMetricState where
  minSpecificity : ℚ
  samples : List (ℚ × ℕ)
deriving DecidableEq, Repr

/-- The accumulate-observations step: append the batch to the state. -/
def sasUpdate (s : BinarySaSMetricState) (batch : List (ℚ × ℕ)) : BinarySaSMetricState :=
  ⟨s.minSpecificity, s.samples ++ batch⟩

/-- Embedded from src `BinarySensitivityAtSpecificity.compute` (lines
125-128): read the accumulated state, compute the metric value, and
return; the method body contains no assignment to `self`, so the state
passes through unchanged. -/
def sasCompute (s : BinarySaSMetricState) : (ℚ × ℚ) × BinarySaSMetricState :=
  (binarySaSUnbinned s.samples s.minSpecificity, s)

/-- The state of a `BinaryNegativePredictiveValue` metric object:
accumulated confusion counts. -/
structure BinaryNpvMetricState where
  counts : BinCounts
deriving DecidableEq, Repr

/-- The accumulate-observations step: add the batch's counts. -/
def npvUpdate (s : BinaryNpvMetricState) (batch : List (ℕ × ℤ))
    (ignoreIndex : Option ℤ) : BinaryNpvMetricState :=
  ⟨s.counts.plus (binaryStatScoresUpdate batch ignoreIndex)⟩

/-- Embedded from src `BinaryNegativePredictiveValue.compute` (lines
106-111): read the final state and reduce; no assignment to `self`. -/
def npvCompute (s : BinaryNpvMetricState) : ℚ × BinaryNpvMetricState :=
  (npvOf s.counts, s)

/-- Claim C8: compute is a pure function of the accumulated state: it
returns the state unchanged, and computing twice without an intervening
update returns equal results, for both metric families. -/
theorem compute_pure_idempotent (s : BinarySaSMetricState) (r : BinaryNpvMetricState) :
    (sasCompute s).2 = s ∧
    (sasCompute ((sasCompute s).2)).1 = (sasCompute s).1 ∧
    (npvCompute r).2 = r ∧
    (npvCompute ((npvCompute r).2)).1 = (npvCompute r).1 :=
  ⟨rfl, rfl, rfl, rfl⟩

/-- Modelled from the spec: the preds normalization of
`_binary_precision_recall_curve_format` (absent from src/), per the class
docstring (src sensitivity_specificity.py lines 54-56): "If preds has
values outside [0,1] range we consider the input to be logits and will
auto apply sigmoid per element." The sigmoid is a transcendental real
function with no exact rational counterpart, so it is a parameter here;
the dispatch condition is the modelled behaviour. -/
def formatPreds (sigmoid : ℚ → ℚ) (preds : List ℚ) : List ℚ :=
  if preds.all (fun p => decide (0 ≤ p) && decide (p ≤ 1)) then preds
  else preds.map sigmoid

/-- Claim C9: floating predictions entirely inside [0, 1] are used
unchanged as probabilities; predictions with at least one value outside
[0, 1] are treated as logits and sigmoid is applied elementwise. -/
theorem format_preds_sigmoid_dispatch (sigmoid : ℚ → ℚ) (preds : List ℚ) :
    ((∀ p ∈ preds, 0 ≤ p ∧ p ≤ 1) → formatPreds sigmoid preds = preds) ∧
    ((∃ p ∈ preds, p < 0 ∨ 1 < p) → formatPreds sigmoid preds = preds.map sigmoid) := by
  constructor
  · intro h
    have hall : preds.all (fun p => decide (0 ≤ p) && decide (p ≤ 1)) = true := by
      rw [List.all_eq_true]
      intro x hx
      simp [(h x hx).1, (h x hx).2]
    simp [formatPreds, hall]
  · intro h
    obtain ⟨p, hp, hout⟩ := h
    have hall : preds.all (fun p => decide (0 ≤ p) && decide (p ≤ 1)) = false := by
      rw [List.all_eq_false]
      refine ⟨p, hp, ?_⟩
      rcases hout with h1 | h1 <;> simp [not_le.mpr h1]
    simp [formatPreds, hall]

/-- Concrete instances of claim C9: `[1/2, 1]` stays unchanged, `[3, 0]`
(score 3 outside [0,1]) goes through the sigmoid elementwise. -/
theorem format_preds_sigmoid_dispatch_witness :
    formatPreds (fun x => x / 2) [(1:ℚ)/2, 1] = [(1:ℚ)/2, 1] ∧
    formatPreds (fun x => x / 2) [(3:ℚ), 0] = [(3:ℚ), 0].map (fun x => x / 2) := by
  constructor
  · refine (format_preds_sigmoid_dispatch _ _).1 ?_
    intro p hp
    rcases List.mem_cons.1 hp with h1 | h2
    · rw [h1]
      norm_num
    · simp only [List.mem_singleton] at h2
      rw [h2]
      norm_num
  · exact (format_preds_sigmoid_dispatch _ _).2
      ⟨3, List.mem_cons_self 3 [0], Or.inr (by norm_num)⟩
